import Mathlib

/-!
# Verification of the clinic-lead scraper's extraction core

Shallow embedding of the heuristic extraction engine found in `py.py`,
`Scrap.py` and `Scrapper.py`: strings are modelled as `List Char`,
regular-expression searches are translated into the equivalent
deterministic character-list scanners, and the BeautifulSoup document
queries are abstracted as fields of a `Doc` record (the text tree itself
is modelled separately as `HNode` where a claim needs it).
-/

/-- Strings of the Python program, modelled as lists of characters. -/
abbrev Str := List Char

/-- Pointwise `Char.toLower`: Python `str.lower()` (ASCII model). -/
def lower (s : Str) : Str := s.map Char.toLower

/-- Python `s.startswith(pat)`: `startsWith pat s` is true iff `pat` is a
prefix of `s`. -/
def startsWith : Str → Str → Bool
  | [], _ => true
  | _ :: _, [] => false
  | p :: ps, c :: cs => p = c && startsWith ps cs

/-- Python `needle in haystack` (substring containment test). -/
def strContains (needle : Str) : Str → Bool
  | [] => needle.isEmpty
  | c :: rest => startsWith needle (c :: rest) || strContains needle rest

/-- Predicate: `needle` occurs contiguously inside `haystack`. -/
def SubstringOf (needle haystack : Str) : Prop :=
  ∃ pre post, haystack = pre ++ needle ++ post

/-- A fetched page, as the scraper consumes it: the raw markup
(`response.text`), the visible text (`soup.get_text()`), the visible text
of the first `<footer>` element when one exists (`soup.find('footer')`),
and the results of the BeautifulSoup structural queries used by the field
extractors (title string, `h1` texts, texts of elements whose `class`
suggests about/doctor/team/staff semantics, of address/location/contact
elements, of contact/phone/email/tel elements, and the `href` values of
`tel:`/`mailto:` anchors). -/
structure Doc where
  rawHtml : Str
  pageText : Str
  footerText : Option Str
  title : Option Str
  h1Texts : List Str
  aboutSectionTexts : List Str
  addressElementTexts : List Str
  contactElementTexts : List Str
  telHrefs : List Str
  mailtoHrefs : List Str
deriving DecidableEq

/-- Model of `WebsiteScraper.__init__`: competitor names are lower-cased once and
stored for the run. -/
def initCompetitors (competitors : List Str) : List Str :=
  competitors.map lower

/-- Model of `WebsiteScraper.check_competitor_presence` (py.py lines 60-97,
Scrap.py lines 52-89), document part: scan the lower-cased visible text
and lower-cased raw markup for each stored competitor in order; if none
hits, scan the footer text the same way; otherwise report no match. -/
def check_competitor_presence (competitors : List Str) (d : Doc) :
    Bool × Option Str :=
  match competitors.find? (fun comp =>
      strContains comp (lower d.pageText) || strContains comp (lower d.rawHtml)) with
  | some comp => (true, some comp)
  | none =>
    match d.footerText with
    | some ft =>
      match competitors.find? (fun comp => strContains comp (lower ft)) with
      | some comp => (true, some comp)
      | none => (false, none)
    | none => (false, none)

/-- The Signature Matcher as configured: competitor list lower-cased at
startup, then the document scan. -/
def matchDoc (competitors : List Str) (d : Doc) : Bool × Option Str :=
  check_competitor_presence (initCompetitors competitors) d

/-- A competitor hits the general scan of a document. -/
def generalHit (d : Doc) (comp : Str) : Bool :=
  strContains comp (lower d.pageText) || strContains comp (lower d.rawHtml)

/-!
## Text tree model (for the footer-containment claim)

`HNode`/`HForest` model the parsed HTML tree that BeautifulSoup exposes:
text leaves and tagged elements with child forests.  `getText` is
`get_text()` (concatenation of all text leaves in document order) and
`findTag` is `soup.find(tag)` (first matching element in document
order).
-/

mutual
inductive HNode where
  | text : Str → HNode
  | elem : Str → HForest → HNode

inductive HForest where
  | nil : HForest
  | cons : HNode → HForest → HForest
end

mutual
/-- Model of `element.get_text()`: concatenation of all text leaves in document
order. -/
def HNode.getText : HNode → Str
  | .text s => s
  | .elem _ cs => HForest.getText cs

def HForest.getText : HForest → Str
  | .nil => []
  | .cons n ns => n.getText ++ HForest.getText ns
end

mutual
/-- Model of `soup.find(tag)`: the first element carrying the given tag, in
document (pre-)order. -/
def HNode.findTag (t : Str) : HNode → Option HNode
  | .text _ => none
  | .elem tag cs => if tag = t then some (.elem tag cs) else HForest.findTag t cs

def HForest.findTag (t : Str) : HForest → Option HNode
  | .nil => none
  | .cons n ns =>
    match HNode.findTag t n with
    | some r => some r
    | none => HForest.findTag t ns
end

/-- The document the matcher sees when the fetched page parses to the
text tree `root` with raw markup `raw`: visible text of the whole tree,
the raw markup, and the visible text of the first `<footer>` element if
any.  (The extractor-query fields are not read by the Signature Matcher
and are left empty.) -/
def docOfTree (root : HNode) (raw : Str) : Doc :=
  { rawHtml := raw
    pageText := HNode.getText root
    footerText := (HNode.findTag (("footer").data) root).map HNode.getText
    title := none
    h1Texts := []
    aboutSectionTexts := []
    addressElementTexts := []
    contactElementTexts := []
    telHrefs := []
    mailtoHrefs := [] }

/-- The Signature Matcher with the footer-only branch removed: the
comparison definition for the redundancy claim. -/
def check_competitor_presence_noFooter (competitors : List Str) (d : Doc) :
    Bool × Option Str :=
  match competitors.find? (fun comp =>
      strContains comp (lower d.pageText) || strContains comp (lower d.rawHtml)) with
  | some comp => (true, some comp)
  | none => (false, none)

/-!
## Character classes and regex building blocks

The regular expressions of `extract_clinic_data` are translated into
deterministic scanners over `List Char`.  ASCII models of Python's
`[A-Z]`, `[a-z]`, `\d`, `\s` and `str.strip()` are used throughout.
-/

/-- Python regex `[A-Z]`. -/
def isUpperAZ (c : Char) : Bool := 'A' ≤ c && c ≤ 'Z'

/-- Python regex `[a-z]`. -/
def isLowerAZ (c : Char) : Bool := 'a' ≤ c && c ≤ 'z'

/-- Python regex `[A-Za-z]`. -/
def isAlphaAZ (c : Char) : Bool := isUpperAZ c || isLowerAZ c

/-- Python regex `\d` (ASCII model). -/
def isDigitChar (c : Char) : Bool := '0' ≤ c && c ≤ '9'

/-- Python regex `\s` (ASCII model: space, tab, newline, carriage
return, vertical tab, form feed). -/
def isSpaceChar (c : Char) : Bool :=
  c = ' ' || c = '\t' || c = '\n' || c = '\r' || c = '\x0B' || c = '\x0C'

/-- Python `str.strip()`: drop leading and trailing whitespace. -/
def stripStr (s : Str) : Str :=
  ((s.dropWhile isSpaceChar).reverse.dropWhile isSpaceChar).reverse

/-- Generic `re.search` driver: try the position matcher `m` at every
start position, left to right (including the final empty suffix), and
return the first hit. -/
def searchWith (m : Str → Option α) : Str → Option α
  | [] => m []
  | c :: rest =>
    match m (c :: rest) with
    | some r => some r
    | none => searchWith m rest

/-- Generic `re.sub(pattern, '', s)` driver with fuel: at each position
try the matcher; on a hit drop the matched text and continue after it,
otherwise keep the character.  All matchers used here consume at least
one character, so fuel `s.length` suffices. -/
def reSubFuel (m : Str → Option Str) : Nat → Str → Str
  | 0, s => s
  | _ + 1, [] => []
  | fuel + 1, c :: rest =>
    match m (c :: rest) with
    | some r => reSubFuel m fuel r
    | none => c :: reSubFuel m fuel rest

/-- Runs `re.sub(pattern, '', s)` (also used for Python `str.replace(lit, '')`). -/
def reSubAll (m : Str → Option Str) (s : Str) : Str := reSubFuel m s.length s

/-- Position matcher for a literal string: Python `str.replace(lit, '')`
is `reSubAll (matchLitAt lit)`. -/
def matchLitAt (lit : Str) (s : Str) : Option Str :=
  if startsWith lit s then some (s.drop lit.length) else none

/-!
## Contact Extractor (py.py lines 212-271)

Phone pattern `(?:\+?1[-.\s]?)?(?:\(?\d{3}\)?[-.\s]?)?\d{3}[-.\s]?\d{4}`
and email pattern `\b[A-Za-z0-9._%+-]+@[A-Za-z0-9.-]+\.[A-Z|a-z]{2,}\b`,
with `re.findall` (leftmost, non-overlapping) semantics.  The scanners
below realize the backtracking search in continuation style: each
optional element greedily tries to consume first and falls back to not
consuming.
-/

/-- Python regex `[-.\s]` (the phone separator class). -/
def isSepChar (c : Char) : Bool := c = '-' || c = '.' || isSpaceChar c

/-- Greedy optional single character (`X?`): try consuming, fall back to
not consuming. -/
def optConsume (p : Char → Bool) (s : Str) (k : Str → Option Str) : Option Str :=
  match s with
  | c :: rest =>
    if p c then
      match k rest with
      | some r => some r
      | none => k s
    else k s
  | [] => k s

/-- Counted digits `\d{n}`: exactly `n` digits, then continue. -/
def exactDigits (n : Nat) (s : Str) (k : Str → Option Str) : Option Str :=
  if (s.take n).length = n && (s.take n).all isDigitChar then k (s.drop n) else none

/-- Phone core `\d{3}[-.\s]?\d{4}`; returns the rest of the input after
the match. -/
def phoneCore (s : Str) : Option Str :=
  exactDigits 3 s (fun s1 => optConsume isSepChar s1 (fun s2 => exactDigits 4 s2 some))

/-- Optional phone group `(?:\(?\d{3}\)?[-.\s]?)?`. -/
def phoneGroup2 (s : Str) (k : Str → Option Str) : Option Str :=
  match optConsume (fun c => c = '(') s (fun s1 =>
      exactDigits 3 s1 (fun s2 =>
        optConsume (fun c => c = ')') s2 (fun s3 =>
          optConsume isSepChar s3 k))) with
  | some r => some r
  | none => k s

/-- Optional phone group `(?:\+?1[-.\s]?)?`. -/
def phoneGroup1 (s : Str) (k : Str → Option Str) : Option Str :=
  match optConsume (fun c => c = '+') s (fun s1 =>
      match s1 with
      | '1' :: s2 => optConsume isSepChar s2 k
      | _ => none) with
  | some r => some r
  | none => k s

/-- The whole phone pattern anchored at the current position (Python
`re.match(phone_pattern, s)` succeeds iff this is `some`); returns the
rest after the match. -/
def matchPhoneAt (s : Str) : Option Str :=
  phoneGroup1 s (fun s1 => phoneGroup2 s1 (fun s2 => phoneCore s2))

/-- Fueled `re.findall(phone_pattern, s)`: leftmost non-overlapping
matches. -/
def findPhonesFuel : Nat → Str → List Str
  | 0, _ => []
  | _ + 1, [] => []
  | fuel + 1, c :: rest =>
    match matchPhoneAt (c :: rest) with
    | some r =>
      ((c :: rest).take ((c :: rest).length - r.length)) :: findPhonesFuel fuel r
    | none => findPhonesFuel fuel rest

/-- Runs `re.findall(phone_pattern, s)`. -/
def findPhones (s : Str) : List Str := findPhonesFuel s.length s

/-- Python regex `[A-Za-z0-9._%+-]` (email local part). -/
def emailLocalChar (c : Char) : Bool :=
  isAlphaAZ c || isDigitChar c || c = '.' || c = '_' || c = '%' || c = '+' || c = '-'

/-- Python regex `[A-Za-z0-9.-]` (email domain part). -/
def emailDomChar (c : Char) : Bool :=
  isAlphaAZ c || isDigitChar c || c = '.' || c = '-'

/-- Python regex `[A-Z|a-z]` (email top-level part; note the literal `|`
inside the class, as written in the source). -/
def emailTldChar (c : Char) : Bool := isAlphaAZ c || c = '|'

/-- Python regex word character (for `\b`). -/
def isWordChar (c : Char) : Bool := isAlphaAZ c || isDigitChar c || c = '_'

/-- Boundary test `\b` between an optional previous and an optional current character. -/
def boundary (prev cur : Option Char) : Bool :=
  (match prev with | some c => isWordChar c | none => false) !=
  (match cur with | some c => isWordChar c | none => false)

/-- Try `f hi`, `f (hi-1)`, ..., `f lo` in that order and return the
first hit (the greedy backtracking order of a counted repetition). -/
def tryDown (f : Nat → Option α) (lo : Nat) : Nat → Option α
  | 0 => if lo = 0 then f 0 else none
  | h + 1 =>
    if h + 1 < lo then none
    else
      match f (h + 1) with
      | some r => some r
      | none => tryDown f lo h

/-- Email tail `[A-Z|a-z]{2,}\b` starting right after the matched dot;
greedy in the repetition count, constrained by the trailing word
boundary; returns the rest after the match. -/
def emailAfterDot (s : Str) : Option Str :=
  tryDown (fun m =>
      match (s.take m).getLast? with
      | some last =>
        if boundary (some last) ((s.drop m).head?) then some (s.drop m) else none
      | none => none)
    2 (s.takeWhile emailTldChar).length

/-- Email domain `[A-Za-z0-9.-]+\.` followed by the tail: the greedy run
backtracks to the last `.` inside it (then to earlier dots if the tail
fails). -/
def emailDomain (s : Str) : Option Str :=
  tryDown (fun j =>
      match (s.takeWhile emailDomChar).get? j with
      | some c => if c = '.' then emailAfterDot (s.drop (j + 1)) else none
      | none => none)
    1 (s.takeWhile emailDomChar).length

/-- The whole email pattern anchored at the current position, with
`prev` the character before it (for the leading `\b`); returns the rest
after the match.  Python `re.match(email_pattern, s)` is
`matchEmailAt none s`. -/
def matchEmailAt (prev : Option Char) (s : Str) : Option Str :=
  if boundary prev s.head? then
    if (s.takeWhile emailLocalChar).isEmpty then none
    else
      match s.dropWhile emailLocalChar with
      | '@' :: rest2 => emailDomain rest2
      | _ => none
  else none

/-- Fueled `re.findall(email_pattern, s)`, threading the previous
character for the `\b` tests. -/
def findEmailsFuel : Nat → Option Char → Str → List Str
  | 0, _, _ => []
  | _ + 1, _, [] => []
  | fuel + 1, prev, c :: rest =>
    match matchEmailAt prev (c :: rest) with
    | some r =>
      let matched := (c :: rest).take ((c :: rest).length - r.length)
      matched :: findEmailsFuel fuel matched.getLast? r
    | none => findEmailsFuel fuel (some c) rest

/-- Runs `re.findall(email_pattern, s)`. -/
def findEmails (s : Str) : List Str := findEmailsFuel s.length none s

/-- Phone normalization (py.py lines 258-265): strip non-digits; if
exactly 10 digits remain, reformat as `(AAA) BBB-CCCC`; otherwise keep
the original string. -/
def formatPhone (p : Str) : Str :=
  let ds := p.filter isDigitChar
  if ds.length = 10 then
    ('(' :: ds.take 3) ++ (')' :: ' ' :: (ds.drop 3).take 3) ++ ('-' :: ds.drop 6)
  else p

/-- Contact extraction (py.py lines 212-271): phones and emails from the
contact-tagged elements, plus `tel:`/`mailto:` link targets that pass
`re.match`; full-page fallback independently for each of the two when
its list is still empty; then at most one phone (normalized) and one
email joined with `' | '`. -/
def extractContact (d : Doc) : Str :=
  let phones1 := (d.contactElementTexts.map findPhones).flatten ++
    ((d.telHrefs.map (fun h => stripStr (reSubAll (matchLitAt (("tel:").data)) h))).filter
      (fun p => (matchPhoneAt p).isSome))
  let emails1 := (d.contactElementTexts.map findEmails).flatten ++
    ((d.mailtoHrefs.map (fun h => stripStr (reSubAll (matchLitAt (("mailto:").data)) h))).filter
      (fun e => (matchEmailAt none e).isSome))
  let phones := if phones1.isEmpty then findPhones d.pageText else phones1
  let emails := if emails1.isEmpty then findEmails d.pageText else emails1
  let ci := (if phones.isEmpty then [] else [formatPhone (phones.headD [])]) ++
    (if emails.isEmpty then [] else [emails.headD []])
  List.intercalate ((" | ").data) ci

/-!
## Location Extractor (py.py lines 183-210)

Patterns `([A-Z][a-zA-Z\s\.]+),\s*([A-Z]{2})\s*\d{5}` (City, ST ZIP) and
`([A-Z][a-zA-Z\s\.]+),\s*([A-Z]{2})` (City, ST), tried in that order per
text; one result per text region; first matching region wins; full-page
fallback only when the structural regions produced nothing.
-/

/-- Python regex `[a-zA-Z\s\.]` (the city-name class). -/
def cityClassChar (c : Char) : Bool := isAlphaAZ c || isSpaceChar c || c = '.'

/-- The city/state pattern anchored at the current position; with
`needZip` it is `([A-Z][a-zA-Z\s\.]+),\s*([A-Z]{2})\s*\d{5}`, without it
`([A-Z][a-zA-Z\s\.]+),\s*([A-Z]{2})`.  Returns the two capture groups.
(Every quantifier here is determined by its follower: `,`, `[A-Z]` and
`\d` all lie outside the preceding class, so greedy-with-backtracking
collapses to the maximal run.) -/
def matchCityStateAt (needZip : Bool) (s : Str) : Option (Str × Str) :=
  match s with
  | c :: r1 =>
    if isUpperAZ c then
      let run := r1.takeWhile cityClassChar
      if run.isEmpty then none
      else
        match r1.dropWhile cityClassChar with
        | ',' :: r2 =>
          match r2.dropWhile isSpaceChar with
          | a :: b :: r4 =>
            if isUpperAZ a && isUpperAZ b then
              if needZip then
                let r5 := r4.dropWhile isSpaceChar
                if (r5.take 5).length = 5 && (r5.take 5).all isDigitChar then
                  some (c :: run, [a, b])
                else none
              else some (c :: run, [a, b])
            else none
          | _ => none
        | _ => none
    else none
  | [] => none

/-- City/state search over one text region: ZIP-qualified pattern first,
plain pattern second; the result is formatted
`f"{group(1).strip()}, {group(2)}"`. -/
def extractCityStateFromText (t : Str) : Option Str :=
  match searchWith (matchCityStateAt true) t with
  | some (g1, g2) => some (stripStr g1 ++ (", ").data ++ g2)
  | none =>
    match searchWith (matchCityStateAt false) t with
    | some (g1, g2) => some (stripStr g1 ++ (", ").data ++ g2)
    | none => none

/-- The Location Extractor: scan the address-tagged element texts in
order, stop at the first that yields a match; fall back to the full page
text only if none did; empty string when nothing matches anywhere. -/
def extract_city_state (addressTexts : List Str) (fullText : Str) : Str :=
  match addressTexts.findSome? extractCityStateFromText with
  | some cs => cs
  | none => (extractCityStateFromText fullText).getD []

/-!
## Provider/Credential Extractor (py.py lines 143-181)

Doctor patterns, in order:
  1. `Dr\.\s+([A-Z][a-z]+\s+[A-Z][a-z]+)`
  2. `([A-Z][a-z]+\s+[A-Z][a-z]+),\s+(?:MD|DO|DDS|DMD|DC|DPM|DVM|VMD|PhD)`
  3. `([A-Z][a-z]+\s+[A-Z][a-z]+)\s+(?:MD|DO|DDS|DMD|DC|DPM|DVM|VMD|PhD)`
then the credential pattern
`(MD|DO|DDS|DMD|DC|DPM|DVM|VMD|PhD|FACP|FACOG|FACS|FAAP|[A-Z\.]+)`
searched inside `text[match.end() : match.end()+50]` — the 50-character
window that begins at the end of the full pattern match.
-/

/-- The name core `[A-Z][a-z]+\s+[A-Z][a-z]+` anchored at the current
position: returns the matched name and the rest after it.  (Each greedy
run is determined by its follower, which lies outside the class.) -/
def matchNameAt (s : Str) : Option (Str × Str) :=
  match s with
  | c1 :: r1 =>
    if isUpperAZ c1 then
      let low1 := r1.takeWhile isLowerAZ
      if low1.isEmpty then none
      else
        let r2 := r1.dropWhile isLowerAZ
        let sp := r2.takeWhile isSpaceChar
        if sp.isEmpty then none
        else
          match r2.dropWhile isSpaceChar with
          | c2 :: r4 =>
            if isUpperAZ c2 then
              let low2 := r4.takeWhile isLowerAZ
              if low2.isEmpty then none
              else some (c1 :: low1 ++ sp ++ c2 :: low2, r4.dropWhile isLowerAZ)
            else none
          | [] => none
    else none
  | [] => none

/-- Doctor pattern 1 anchored at the current position: literal `Dr.`,
whitespace, then the name; the match ends with the name. -/
def matchDrAt (s : Str) : Option (Str × Str) :=
  match s with
  | 'D' :: 'r' :: '.' :: r1 =>
    if (r1.takeWhile isSpaceChar).isEmpty then none
    else matchNameAt (r1.dropWhile isSpaceChar)
  | _ => none

/-- The non-capturing credential suffix alternatives of doctor patterns
2 and 3, in source order. -/
def suffixCreds : List Str :=
  [("MD").data, ("DO").data, ("DDS").data, ("DMD").data, ("DC").data,
   ("DPM").data, ("DVM").data, ("VMD").data, ("PhD").data]

/-- Doctor pattern 2 anchored at the current position: name, comma,
whitespace, credential suffix; the match ends after the credential. -/
def matchCommaCredAt (s : Str) : Option (Str × Str) :=
  match matchNameAt s with
  | some (name, r1) =>
    match r1 with
    | ',' :: r2 =>
      if (r2.takeWhile isSpaceChar).isEmpty then none
      else
        let r3 := r2.dropWhile isSpaceChar
        match suffixCreds.find? (fun cr => startsWith cr r3) with
        | some cr => some (name, r3.drop cr.length)
        | none => none
    | _ => none
  | none => none

/-- Doctor pattern 3 anchored at the current position: name, whitespace,
credential suffix; the match ends after the credential. -/
def matchSpaceCredAt (s : Str) : Option (Str × Str) :=
  match matchNameAt s with
  | some (name, r1) =>
    if (r1.takeWhile isSpaceChar).isEmpty then none
    else
      let r2 := r1.dropWhile isSpaceChar
      match suffixCreds.find? (fun cr => startsWith cr r2) with
      | some cr => some (name, r2.drop cr.length)
      | none => none
  | none => none

/-- The inner pattern loop of the provider extraction: search each
doctor pattern over the whole text, in pattern order, and accept the
first pattern that matches anywhere; returns `group(1)` (the name) and
the rest of the text after the full match. -/
def providerSearch (t : Str) : Option (Str × Str) :=
  match searchWith matchDrAt t with
  | some r => some r
  | none =>
    match searchWith matchCommaCredAt t with
    | some r => some r
    | none => searchWith matchSpaceCredAt t

/-- The credential alternation literals, in source order. -/
def allCreds : List Str :=
  [("MD").data, ("DO").data, ("DDS").data, ("DMD").data, ("DC").data,
   ("DPM").data, ("DVM").data, ("VMD").data, ("PhD").data,
   ("FACP").data, ("FACOG").data, ("FACS").data, ("FAAP").data]

/-- Python regex `[A-Z\.]` (the catch-all credential class). -/
def credClassChar (c : Char) : Bool := isUpperAZ c || c = '.'

/-- The credential pattern anchored at the current position: the first
literal alternative that is a prefix of the input, else a nonempty
`[A-Z\.]+` run. -/
def matchCredAt (s : Str) : Option Str :=
  match allCreds.find? (fun cr => startsWith cr s) with
  | some cr => some cr
  | none =>
    let run := s.takeWhile credClassChar
    if run.isEmpty then none else some run

/-- Runs `re.search(credentials_pattern, s)`. -/
def searchCred (s : Str) : Option Str := searchWith matchCredAt s

/-- Provider extraction over one text region: run the pattern loop; on a
hit, search the credential pattern inside the 50-character window after
the full match. -/
def extractProviderFromText (t : Str) : Option (Str × Option Str) :=
  match providerSearch t with
  | some (name, rest) => some (name, searchCred (rest.take 50))
  | none => none

/-- The Provider/Credential Extractor: first about/doctor/team-tagged
region whose text matches wins; the full page text is tried once when no
region matched; both fields stay empty when nothing matches anywhere. -/
def extract_provider (aboutTexts : List Str) (fullText : Str) : Str × Str :=
  match aboutTexts.findSome? extractProviderFromText with
  | some (n, c) => (n, c.getD [])
  | none =>
    match extractProviderFromText fullText with
    | some (n, c) => (n, c.getD [])
    | none => ([], [])

/-!
## Record Assembler and Batch Processor (py.py lines 99-320)
-/

/-- The `Home |` / `| Home` boilerplate pattern
`(Home\s*\|\s*)|(\s*\|\s*Home)` anchored at the current position
(alternative 1 first, as the regex engine tries them). -/
def matchHomeSubAt (s : Str) : Option Str :=
  match (if startsWith (("Home").data) s then
           match (s.drop 4).dropWhile isSpaceChar with
           | '|' :: r2 => some (r2.dropWhile isSpaceChar)
           | _ => none
         else none) with
  | some r => some r
  | none =>
    match s.dropWhile isSpaceChar with
    | '|' :: r2 =>
      let r3 := r2.dropWhile isSpaceChar
      if startsWith (("Home").data) r3 then some (r3.drop 4) else none
    | _ => none

/-- The per-competitor title-cleanup pattern `\s*\|\s*` + competitor
(case-insensitive, the competitor string taken literally) anchored at
the current position. -/
def matchPipeCompAt (comp : Str) (s : Str) : Option Str :=
  match s.dropWhile isSpaceChar with
  | '|' :: r2 =>
    let r3 := r2.dropWhile isSpaceChar
    if startsWith (lower comp) (lower r3) then some (r3.drop comp.length) else none
  | _ => none

/-- Clinic-name extraction and cleanup (py.py lines 127-141): title
string (stripped) if the page has a titled `<title>`, else the first
`h1` text (stripped); when non-empty, remove the `Home |` boilerplate
and then each `| competitor` suffix in competitor order. -/
def extract_clinic_name (competitors : List Str) (d : Doc) : Str :=
  let base :=
    match d.title with
    | some t => stripStr t
    | none =>
      match d.h1Texts with
      | h :: _ => stripStr h
      | [] => []
  if base.isEmpty then base
  else competitors.foldl (fun acc comp => reSubAll (matchPipeCompAt comp) acc)
    (reSubAll matchHomeSubAt base)

/-- One output record (py.py lines 110-118: all fields default to the
empty string except the two inputs). -/
structure ClinicData where
  clinic_name : Str
  provider_name : Str
  credentials : Str
  website_url : Str
  city_state : Str
  contact_info : Str
  website_provider : Str
deriving DecidableEq

/-- The defaults `extract_clinic_data` starts from: `website_url` and
`website_provider` are the inputs, every other field the empty string. -/
def defaultClinicData (url competitor : Str) : ClinicData :=
  { clinic_name := []
    provider_name := []
    credentials := []
    website_url := url
    city_state := []
    contact_info := []
    website_provider := competitor }

/-- Model of `WebsiteScraper.extract_clinic_data` (py.py lines 99-277): build the
record from the defaults; when the fetch succeeds, fill the best-effort
fields from the document; when it fails, return the defaults (the
`except` branch returns the partially-built `clinic_data`). -/
def extract_clinic_data (competitors : List Str) (fetch : Str → Option Doc)
    (url competitor : Str) : ClinicData :=
  match fetch url with
  | none => defaultClinicData url competitor
  | some d =>
    let pc := extract_provider d.aboutSectionTexts d.pageText
    { clinic_name := extract_clinic_name competitors d
      provider_name := pc.1
      credentials := pc.2
      website_url := url
      city_state := extract_city_state d.addressElementTexts d.pageText
      contact_info := extractContact d
      website_provider := competitor }

/-- Model of `check_competitor_presence` including the fetch: a failed fetch is
caught and reported as no match (py.py lines 95-97). -/
def check_url (competitors : List Str) (fetch : Str → Option Doc) (url : Str) :
    Bool × Option Str :=
  match fetch url with
  | some d => check_competitor_presence competitors d
  | none => (false, none)

/-- URL fixing in `process_urls` (py.py lines 297-299): prepend
`http://` when the URL does not start with `http`. -/
def fixUrl (url : Str) : Str :=
  if startsWith (("http").data) url then url else ("http://").data ++ url

/-- Model of `WebsiteScraper.process_urls` (py.py lines 279-320): for each URL in
order, fix the scheme, run the matcher, and append an extracted record
exactly when a competitor was found. -/
def process_urls (competitors : List Str) (fetch : Str → Option Doc) :
    List Str → List ClinicData
  | [] => []
  | url :: rest =>
    let u := fixUrl url
    let r := check_url competitors fetch u
    if r.1 then
      extract_clinic_data competitors fetch u (r.2.getD []) ::
        process_urls competitors fetch rest
    else process_urls competitors fetch rest

/-- Model of `WebsiteScraper.load_urls_from_csv` (Scrap.py lines 25-50), one row:
an empty row contributes nothing; otherwise the first cell is stripped
and, when the original cell does not start with `http`, prefixed with
`http://`. -/
def load_row_url (row : List Str) : Option Str :=
  match row with
  | [] => none
  | cell :: _ =>
    if startsWith (("http").data) cell then some (stripStr cell)
    else some (("http://").data ++ stripStr cell)

/-!
## Deduplication in `run_prospecting_campaign` (Scrapper.py lines 336-343)
-/

/-- One prospect dictionary of `Scrapper.py` (the fields written by
`extract_clinic_data`/`process_search_results` there); only `url` drives
deduplication. -/
structure Prospect where
  name : Option Str
  url : Str
  provider_name : Option Str
  credentials : Option Str
  city_state : Option Str
  contact_info : Option Str
  website_provider : Option Str
  vertical : Option Str
deriving DecidableEq

/-- The dedup loop with the `unique_urls` set modelled as the list of
URLs seen so far. -/
def dedupAux (seen : List Str) : List Prospect → List Prospect
  | [] => []
  | p :: ps =>
    if p.url ∈ seen then dedupAux seen ps
    else p :: dedupAux (p.url :: seen) ps

/-- The duplicate-removal pass of `run_prospecting_campaign`: keep a
prospect iff its URL has not been seen before. -/
def removeDuplicateProspects (l : List Prospect) : List Prospect :=
  dedupAux [] l

/-!
## Claims C4, C7, C8, C10
-/

/-!
## Claims C5, C6, C2
-/

/-- A concrete page whose raw markup carries the `tebra` signature but
whose visible text and structural regions are empty (used by the
batch-processing example). -/
def docTebra : Doc :=
  { rawHtml := ("tebra").data
    pageText := []
    footerText := none
    title := none
    h1Texts := []
    aboutSectionTexts := []
    addressElementTexts := []
    contactElementTexts := []
    telHrefs := []
    mailtoHrefs := [] }

/-- A concrete fetch environment: only `http://b.example.com` resolves,
to `docTebra`. -/
def fetchB : Str → Option Doc :=
  fun u => if u = ("http://b.example.com").data then some docTebra else none

/-- A concrete footer element (used by the footer-redundancy example). -/
def footerEx : HNode :=
  HNode.elem (("footer").data) (HForest.cons (HNode.text (("by tebra").data)) HForest.nil)

/-- A concrete page tree containing `footerEx` (used by the
footer-redundancy example). -/
def treeEx : HNode :=
  HNode.elem (("html").data)
    (HForest.cons (HNode.text (("hello ").data)) (HForest.cons footerEx HForest.nil))

/-!
## Theorems
-/

theorem startsWith_iff (p s : Str) : startsWith p s = true ↔ ∃ t, s = p ++ t := by
  induction p generalizing s with
  | nil => simp [startsWith]
  | cons c cs ih =>
    cases s with
    | nil => simp [startsWith]
    | cons d ds =>
      simp only [startsWith, Bool.and_eq_true, decide_eq_true_eq, ih]
      constructor
      · rintro ⟨rfl, t, rfl⟩
        exact ⟨t, rfl⟩
      · rintro ⟨t, h⟩
        cases h
        exact ⟨rfl, t, rfl⟩

theorem strContains_iff (n h : Str) : strContains n h = true ↔ SubstringOf n h := by
  induction h with
  | nil =>
    constructor
    · intro hc
      cases n with
      | nil => exact ⟨[], [], rfl⟩
      | cons a as => simp [strContains] at hc
    · rintro ⟨pre, post, hh⟩
      have h2 := List.append_eq_nil.mp hh.symm
      have h3 := List.append_eq_nil.mp h2.1
      simp [strContains, h3.2]
  | cons c rest ih =>
    simp only [strContains, Bool.or_eq_true, startsWith_iff, ih]
    constructor
    · rintro (⟨t, ht⟩ | ⟨pre, post, hh⟩)
      · exact ⟨[], t, by simpa using ht⟩
      · exact ⟨c :: pre, post, by simp [hh]⟩
    · rintro ⟨pre, post, hh⟩
      cases pre with
      | nil => exact Or.inl ⟨post, by simpa using hh⟩
      | cons p ps =>
        right
        rcases List.cons_eq_cons.mp hh with ⟨rfl, h2⟩
        exact ⟨ps, post, h2⟩

theorem SubstringOf.refl (s : Str) : SubstringOf s s := ⟨[], [], by simp⟩

theorem SubstringOf.append_left (h : SubstringOf n s) (t : Str) :
    SubstringOf n (t ++ s) := by
  rcases h with ⟨pre, post, rfl⟩
  exact ⟨t ++ pre, post, by simp⟩

theorem SubstringOf.append_right (h : SubstringOf n s) (t : Str) :
    SubstringOf n (s ++ t) := by
  rcases h with ⟨pre, post, rfl⟩
  exact ⟨pre, post ++ t, by simp⟩

theorem SubstringOf.trans (h1 : SubstringOf a b) (h2 : SubstringOf b c) :
    SubstringOf a c := by
  rcases h1 with ⟨p1, q1, rfl⟩
  rcases h2 with ⟨p2, q2, rfl⟩
  exact ⟨p2 ++ p1, q1 ++ q2, by simp⟩

theorem SubstringOf.map (f : Char → Char) (h : SubstringOf n s) :
    SubstringOf (n.map f) (s.map f) := by
  rcases h with ⟨pre, post, rfl⟩
  exact ⟨pre.map f, post.map f, by simp⟩

theorem check_eq_general_some {competitors : List Str} {d : Doc} {comp : Str}
    (h : competitors.find? (fun comp =>
        strContains comp (lower d.pageText) || strContains comp (lower d.rawHtml)) = some comp) :
    check_competitor_presence competitors d = (true, some comp) := by
  unfold check_competitor_presence
  rw [h]

theorem check_eq_foot_none {competitors : List Str} {d : Doc}
    (h : competitors.find? (fun comp =>
        strContains comp (lower d.pageText) || strContains comp (lower d.rawHtml)) = none)
    (hft : d.footerText = none) :
    check_competitor_presence competitors d = (false, none) := by
  unfold check_competitor_presence
  rw [h, hft]

theorem check_eq_foot_some_none {competitors : List Str} {d : Doc} {ft : Str}
    (h : competitors.find? (fun comp =>
        strContains comp (lower d.pageText) || strContains comp (lower d.rawHtml)) = none)
    (hft : d.footerText = some ft)
    (hf : competitors.find? (fun comp => strContains comp (lower ft)) = none) :
    check_competitor_presence competitors d = (false, none) := by
  unfold check_competitor_presence
  rw [h, hft]
  show (match competitors.find? (fun comp => strContains comp (lower ft)) with
        | some comp => (true, some comp)
        | none => (false, none)) = (false, none)
  rw [hf]

theorem check_eq_foot_some_some {competitors : List Str} {d : Doc} {ft comp : Str}
    (h : competitors.find? (fun comp =>
        strContains comp (lower d.pageText) || strContains comp (lower d.rawHtml)) = none)
    (hft : d.footerText = some ft)
    (hf : competitors.find? (fun comp => strContains comp (lower ft)) = some comp) :
    check_competitor_presence competitors d = (true, some comp) := by
  unfold check_competitor_presence
  rw [h, hft]
  show (match competitors.find? (fun comp => strContains comp (lower ft)) with
        | some comp => (true, some comp)
        | none => (false, none)) = (true, some comp)
  rw [hf]

theorem matchDoc_eq (competitors : List Str) (d : Doc) :
    matchDoc competitors d = check_competitor_presence (competitors.map lower) d := rfl

theorem find?_eq_none_iff {p : α → Bool} {l : List α} :
    l.find? p = none ↔ ∀ x ∈ l, p x = false := by
  rw [List.find?_eq_none]
  simp

theorem find?_first {p : α → Bool} {l₁ l₂ : List α} {c : α}
    (h₁ : ∀ x ∈ l₁, p x = false) (hc : p c = true) :
    (l₁ ++ c :: l₂).find? p = some c := by
  induction l₁ with
  | nil => simp [List.find?, hc]
  | cons a as ih =>
    have ha : p a = false := h₁ a (by simp)
    simp only [List.cons_append, List.find?, ha]
    exact ih fun x hx => h₁ x (by simp [hx])

/-- C1. The Signature Matcher finds a competitor iff some lower-cased
vendor string occurs in the lower-cased visible text, raw markup, or
footer text; and when nothing is found no vendor is reported. -/
theorem c1_matcher_found_iff (competitors : List Str) (d : Doc) :
    ((matchDoc competitors d).1 = true ↔
      ∃ c ∈ competitors,
        strContains (lower c) (lower d.pageText) = true ∨
        strContains (lower c) (lower d.rawHtml) = true ∨
        ∃ ft, d.footerText = some ft ∧ strContains (lower c) (lower ft) = true)
    ∧ ((matchDoc competitors d).1 = false → (matchDoc competitors d).2 = none) := by
  rw [matchDoc_eq]
  cases hgen : (competitors.map lower).find? (fun comp =>
      strContains comp (lower d.pageText) || strContains comp (lower d.rawHtml)) with
  | none =>
    have hnone := find?_eq_none_iff.mp hgen
    cases hft : d.footerText with
    | none =>
      rw [check_eq_foot_none hgen hft]
      refine ⟨⟨fun h => absurd h (by simp), ?_⟩, fun _ => rfl⟩
      rintro ⟨c, hc, h | h | ⟨ft, hft', -⟩⟩
      · have := hnone (lower c) (List.mem_map_of_mem lower hc)
        simp [h] at this
      · have := hnone (lower c) (List.mem_map_of_mem lower hc)
        simp [h] at this
      · exact absurd hft' (by simp)
    | some ft =>
      cases hfoot : (competitors.map lower).find? (fun comp =>
          strContains comp (lower ft)) with
      | none =>
        have hfnone := find?_eq_none_iff.mp hfoot
        rw [check_eq_foot_some_none hgen hft hfoot]
        refine ⟨⟨fun h => absurd h (by simp), ?_⟩, fun _ => rfl⟩
        rintro ⟨c, hc, h | h | ⟨ft', hft', hcont⟩⟩
        · have := hnone (lower c) (List.mem_map_of_mem lower hc)
          simp [h] at this
        · have := hnone (lower c) (List.mem_map_of_mem lower hc)
          simp [h] at this
        · obtain rfl : ft = ft' := Option.some.inj hft'
          have := hfnone (lower c) (List.mem_map_of_mem lower hc)
          simp [hcont] at this
      | some comp =>
        rw [check_eq_foot_some_some hgen hft hfoot]
        refine ⟨⟨fun _ => ?_, fun _ => rfl⟩, fun h => absurd h (by simp)⟩
        have hmem := List.mem_of_find?_eq_some hfoot
        have hpred := List.find?_some hfoot
        rcases List.mem_map.mp hmem with ⟨c, hc, rfl⟩
        exact ⟨c, hc, Or.inr (Or.inr ⟨ft, rfl, hpred⟩)⟩
  | some comp =>
    rw [check_eq_general_some hgen]
    refine ⟨⟨fun _ => ?_, fun _ => rfl⟩, fun h => absurd h (by simp)⟩
    have hmem := List.mem_of_find?_eq_some hgen
    have hpred := List.find?_some hgen
    rcases List.mem_map.mp hmem with ⟨c, hc, rfl⟩
    simp only [Bool.or_eq_true] at hpred
    rcases hpred with h | h
    · exact ⟨c, hc, Or.inl h⟩
    · exact ⟨c, hc, Or.inr (Or.inl h)⟩

/-- C3. Vendor resolution is first-match-in-configured-order: if `c` is a
configured competitor, every competitor configured before `c` misses the
general scan, and (lower-cased) `c` occurs in the document's lower-cased
visible text or raw markup, then the matcher returns exactly
(lower-cased) `c`. -/
theorem c3_first_match_wins (l₁ l₂ : List Str) (c : Str) (d : Doc)
    (hc : generalHit d (lower c) = true)
    (hprev : ∀ c' ∈ l₁, generalHit d (lower c') = false) :
    matchDoc (l₁ ++ c :: l₂) d = (true, some (lower c)) := by
  rw [matchDoc_eq]
  apply check_eq_general_some
  rw [List.map_append, List.map_cons]
  apply find?_first
  · intro x hx
    rcases List.mem_map.mp hx with ⟨c', hc', rfl⟩
    exact hprev c' hc'
  · exact hc

/-- Witness for C3: with competitors configured as `["Tebra", "iMatrix"]`
and a page whose visible text mentions both, the matcher returns
`"tebra"`. -/
theorem c3_first_match_wins_witness :
    matchDoc [("Tebra").data, ("iMatrix").data]
      { rawHtml := []
        pageText := ("powered by tebra and imatrix").data
        footerText := none
        title := none
        h1Texts := []
        aboutSectionTexts := []
        addressElementTexts := []
        contactElementTexts := []
        telHrefs := []
        mailtoHrefs := [] } = (true, some (("tebra").data)) := by
  have h := c3_first_match_wins [] [("iMatrix").data] (("Tebra").data)
      { rawHtml := []
        pageText := ("powered by tebra and imatrix").data
        footerText := none
        title := none
        h1Texts := []
        aboutSectionTexts := []
        addressElementTexts := []
        contactElementTexts := []
        telHrefs := []
        mailtoHrefs := [] }
      (by decide) (by intro c' hc'; simp at hc')
  simpa using h

mutual
theorem hnode_sub_of_findTag {t : Str} : ∀ (n r : HNode),
    HNode.findTag t n = some r → SubstringOf (HNode.getText r) (HNode.getText n)
  | .text s, r, h => by simp [HNode.findTag] at h
  | .elem tag cs, r, h => by
    unfold HNode.findTag at h
    by_cases htag : tag = t
    · rw [if_pos htag] at h
      obtain rfl := Option.some.inj h
      exact SubstringOf.refl _
    · rw [if_neg htag] at h
      show SubstringOf (HNode.getText r) (HForest.getText cs)
      exact hforest_sub_of_findTag cs r h

theorem hforest_sub_of_findTag {t : Str} : ∀ (f : HForest) (r : HNode),
    HForest.findTag t f = some r → SubstringOf (HNode.getText r) (HForest.getText f)
  | .nil, r, h => by simp [HForest.findTag] at h
  | .cons n ns, r, h => by
    unfold HForest.findTag at h
    cases hn : HNode.findTag t n with
    | some r' =>
      rw [hn] at h
      obtain rfl := Option.some.inj h
      show SubstringOf (HNode.getText r') (HNode.getText n ++ HForest.getText ns)
      exact (hnode_sub_of_findTag n r' hn).append_right _
    | none =>
      rw [hn] at h
      show SubstringOf (HNode.getText r) (HNode.getText n ++ HForest.getText ns)
      exact (hforest_sub_of_findTag ns r h).append_left _
end

/-- C9. The footer-only scan is redundant: the footer's visible text is
always a substring of the whole document's visible text, so on any
tree-derived document the matcher with the footer branch agrees with the
matcher without it. -/
theorem c9_footer_scan_redundant (competitors : List Str) (root : HNode) (raw : Str) :
    (∀ n, HNode.findTag (("footer").data) root = some n →
      SubstringOf (HNode.getText n) (HNode.getText root))
    ∧ check_competitor_presence competitors (docOfTree root raw) =
      check_competitor_presence_noFooter competitors (docOfTree root raw) := by
  refine ⟨fun n h => hnode_sub_of_findTag root n h, ?_⟩
  cases hgen : competitors.find? (fun comp =>
      strContains comp (lower (docOfTree root raw).pageText) ||
      strContains comp (lower (docOfTree root raw).rawHtml)) with
  | some comp =>
    rw [check_eq_general_some hgen]
    unfold check_competitor_presence_noFooter
    rw [hgen]
  | none =>
    have hnone := find?_eq_none_iff.mp hgen
    cases hfoot : (docOfTree root raw).footerText with
    | none =>
      rw [check_eq_foot_none hgen hfoot]
      unfold check_competitor_presence_noFooter
      rw [hgen]
    | some ft =>
      have hfoot' : (HNode.findTag (("footer").data) root).map HNode.getText = some ft :=
        hfoot
      rcases Option.map_eq_some'.mp hfoot' with ⟨fn, hfn, rfl⟩
      have hffind : competitors.find? (fun comp =>
          strContains comp (lower (HNode.getText fn))) = none := by
        apply find?_eq_none_iff.mpr
        intro comp hcomp
        cases hcc : strContains comp (lower (HNode.getText fn)) with
        | false => rfl
        | true =>
          exfalso
          have hsub1 : SubstringOf comp (lower (HNode.getText fn)) :=
            (strContains_iff _ _).mp hcc
          have hsub2 : SubstringOf (lower (HNode.getText fn)) (lower (HNode.getText root)) :=
            SubstringOf.map _ (hnode_sub_of_findTag root fn hfn)
          have hc2 : strContains comp (lower (HNode.getText root)) = true :=
            (strContains_iff _ _).mpr (hsub1.trans hsub2)
          have hfalse := hnone comp hcomp
          rw [show (docOfTree root raw).pageText = HNode.getText root from rfl] at hfalse
          simp [hc2] at hfalse
      rw [check_eq_foot_some_none hgen hfoot hffind]
      unfold check_competitor_presence_noFooter
      rw [hgen]

/-- C4. Phone normalization: all non-digit characters are stripped; with
exactly 10 digits left the stored phone is `(AAA) BBB-CCCC` built from
those digits; with any other digit count the original string is stored
unchanged. -/
theorem c4_phone_normalization (p : Str) :
    ((p.filter isDigitChar).length = 10 →
      formatPhone p =
        ('(' :: (p.filter isDigitChar).take 3) ++
        (')' :: ' ' :: ((p.filter isDigitChar).drop 3).take 3) ++
        ('-' :: (p.filter isDigitChar).drop 6))
    ∧ ((p.filter isDigitChar).length ≠ 10 → formatPhone p = p) := by
  constructor <;> intro h <;> simp [formatPhone, h]

/-- Witness for C4: `"619.555.1234"` is reformatted to
`"(619) 555-1234"`, while the 7-digit `"555.1234"` passes through
unchanged. -/
theorem c4_phone_normalization_witness :
    formatPhone (("619.555.1234").data) = ("(619) 555-1234").data ∧
    formatPhone (("555.1234").data) = ("555.1234").data := by
  constructor
  · exact ((c4_phone_normalization (("619.555.1234").data)).1 (by decide)).trans (by decide)
  · exact (c4_phone_normalization (("555.1234").data)).2 (by decide)

theorem extract_clinic_data_website_url (competitors : List Str)
    (fetch : Str → Option Doc) (url competitor : Str) :
    (extract_clinic_data competitors fetch url competitor).website_url = url := by
  unfold extract_clinic_data
  cases fetch url <;> rfl

theorem extract_clinic_data_website_provider (competitors : List Str)
    (fetch : Str → Option Doc) (url competitor : Str) :
    (extract_clinic_data competitors fetch url competitor).website_provider = competitor := by
  unfold extract_clinic_data
  cases fetch url <;> rfl

/-- C7. The Record Assembler is total and keeps its two mandatory
fields: `website_url` is the input URL and `website_provider` the
matched competitor, whatever the fetch does; a failed fetch yields the
default record (all best-effort fields empty); and a URL whose fetch
fails contributes nothing to the batch, which continues. -/
theorem c7_record_assembler_total (competitors : List Str) (fetch : Str → Option Doc)
    (url competitor : Str) :
    ((extract_clinic_data competitors fetch url competitor).website_url = url
      ∧ (extract_clinic_data competitors fetch url competitor).website_provider = competitor)
    ∧ (fetch url = none →
        extract_clinic_data competitors fetch url competitor =
          defaultClinicData url competitor)
    ∧ (∀ u rest, fetch (fixUrl u) = none →
        process_urls competitors fetch (u :: rest) = process_urls competitors fetch rest) := by
  refine ⟨⟨extract_clinic_data_website_url .., extract_clinic_data_website_provider ..⟩, ?_, ?_⟩
  · intro h
    unfold extract_clinic_data
    rw [h]
  · intro u rest h
    simp [process_urls, check_url, h]

/-- Witness for C7: a fetch that always fails still produces the default
record and an empty batch output. -/
theorem c7_record_assembler_total_witness :
    ((extract_clinic_data [] (fun _ => none) (("x.com").data) (("tebra").data)).website_url =
        ("x.com").data
      ∧ (extract_clinic_data [] (fun _ => none) (("x.com").data)
          (("tebra").data)).website_provider = ("tebra").data)
    ∧ extract_clinic_data [] (fun _ => none) (("x.com").data) (("tebra").data) =
        defaultClinicData (("x.com").data) (("tebra").data)
    ∧ process_urls [] (fun _ => none) [("x.com").data] = process_urls [] (fun _ => none) [] := by
  have h := c7_record_assembler_total [] (fun _ => none) (("x.com").data) (("tebra").data)
  exact ⟨h.1, h.2.1 rfl, h.2.2 (("x.com").data) [] rfl⟩

/-- C8 counterexample: a CSV row whose cell already starts with `http`
but carries trailing whitespace is loaded in stripped form, not kept
unchanged as the claim states. -/
theorem c8_loader_strip_counterexample :
    load_row_url [("http://a.example.com ").data] = some (("http://a.example.com").data)
    ∧ load_row_url [("http://a.example.com ").data] ≠
        some (("http://a.example.com ").data) := by
  constructor
  · decide
  · decide

/-- C8 (amended). Scheme normalization: the batch processor keeps a URL
starting with `http` unchanged and otherwise prepends `http://` to it
as-is; the CSV loader strips the first cell of a non-empty row and
prepends `http://` exactly when the original cell does not start with
`http` (so an `http`-leading cell is kept only up to stripping). -/
theorem c8_url_scheme_normalization (url cell : Str) (row : List Str) :
    (startsWith (("http").data) url = true → fixUrl url = url)
    ∧ (startsWith (("http").data) url = false → fixUrl url = ("http://").data ++ url)
    ∧ (startsWith (("http").data) cell = true →
        load_row_url (cell :: row) = some (stripStr cell))
    ∧ (startsWith (("http").data) cell = false →
        load_row_url (cell :: row) = some (("http://").data ++ stripStr cell)) := by
  refine ⟨?_, ?_, ?_, ?_⟩ <;> intro h <;> simp [fixUrl, load_row_url, h]

/-- Witness for C8: `"b.example.com"` is auto-prefixed to
`"http://b.example.com"` by both the processor and the loader. -/
theorem c8_url_scheme_normalization_witness :
    fixUrl (("b.example.com").data) = ("http://b.example.com").data
    ∧ load_row_url [("b.example.com").data] = some (("http://b.example.com").data) := by
  have h := c8_url_scheme_normalization (("b.example.com").data) (("b.example.com").data) []
  constructor
  · exact (h.2.1 (by decide)).trans (by decide)
  · exact (h.2.2.2 (by decide)).trans (by decide)

theorem dedupAux_sublist (seen : List Str) (l : List Prospect) :
    List.Sublist (dedupAux seen l) l := by
  induction l generalizing seen with
  | nil => simp [dedupAux]
  | cons p ps ih =>
    unfold dedupAux
    by_cases h : p.url ∈ seen
    · simp only [if_pos h]
      exact (ih seen).cons p
    · simp only [if_neg h]
      exact (ih (p.url :: seen)).cons₂ p

theorem dedupAux_nodup (seen : List Str) (l : List Prospect) :
    (∀ p ∈ dedupAux seen l, p.url ∉ seen) ∧
    ((dedupAux seen l).map Prospect.url).Nodup := by
  induction l generalizing seen with
  | nil => simp [dedupAux]
  | cons p ps ih =>
    unfold dedupAux
    by_cases h : p.url ∈ seen
    · simp only [if_pos h]
      refine ⟨(ih seen).1, (ih seen).2⟩
    · simp only [if_neg h]
      constructor
      · intro q hq
        rcases List.mem_cons.mp hq with rfl | hq'
        · exact h
        · intro hqseen
          exact (ih (p.url :: seen)).1 q hq' (List.mem_cons_of_mem _ hqseen)
      · rw [List.map_cons, List.nodup_cons]
        constructor
        · intro hmem
          rcases List.mem_map.mp hmem with ⟨q, hq, hq'⟩
          exact (ih (p.url :: seen)).1 q hq (by rw [hq']; exact List.mem_cons_self _ _)
        · exact (ih (p.url :: seen)).2

theorem dedupAux_find? (l : List Prospect) (seen : List Str) (u : Str)
    (hu : u ∉ seen) :
    (dedupAux seen l).find? (fun p => decide (p.url = u)) =
      l.find? (fun p => decide (p.url = u)) := by
  induction l generalizing seen with
  | nil => simp [dedupAux]
  | cons p ps ih =>
    unfold dedupAux
    by_cases h : p.url ∈ seen
    · simp only [if_pos h]
      have hne : ¬(p.url = u) := fun he => hu (he ▸ h)
      rw [List.find?_cons_of_neg _ (by simpa using hne)]
      exact ih seen hu
    · simp only [if_neg h]
      by_cases he : p.url = u
      · rw [List.find?_cons_of_pos _ (by simpa using he),
          List.find?_cons_of_pos _ (by simpa using he)]
      · rw [List.find?_cons_of_neg _ (by simpa using he),
          List.find?_cons_of_neg _ (by simpa using he)]
        exact ih (p.url :: seen) (by
          intro hmem
          rcases List.mem_cons.mp hmem with rfl | hmem'
          · exact he rfl
          · exact hu hmem')

/-- C10. Deduplication keeps the first occurrence: the output of the
dedup pass has pairwise-distinct URLs, is a subsequence of the input
(so the surviving records keep their relative order and all come from
the input), and for every URL the first record found in the output is
exactly the first record with that URL in the input. -/
theorem c10_dedup_keeps_first (l : List Prospect) :
    ((removeDuplicateProspects l).map Prospect.url).Nodup
    ∧ List.Sublist (removeDuplicateProspects l) l
    ∧ ∀ u : Str, (removeDuplicateProspects l).find? (fun p => decide (p.url = u)) =
        l.find? (fun p => decide (p.url = u)) := by
  refine ⟨(dedupAux_nodup [] l).2, dedupAux_sublist [] l, fun u => ?_⟩
  exact dedupAux_find? l [] u (by simp)

theorem findSome?_first {f : α → Option β} {l₁ l₂ : List α} {a : α} {b : β}
    (h₁ : ∀ x ∈ l₁, f x = none) (ha : f a = some b) :
    (l₁ ++ a :: l₂).findSome? f = some b := by
  induction l₁ with
  | nil => simp [List.findSome?_cons, ha]
  | cons x xs ih =>
    have hx := h₁ x (by simp)
    simp only [List.cons_append, List.findSome?_cons, hx]
    exact ih fun y hy => h₁ y (by simp [hy])

theorem searchWith_some {m : Str → Option α} {t : Str} {r : α}
    (h : searchWith m t = some r) : ∃ s, m s = some r := by
  induction t with
  | nil => exact ⟨[], h⟩
  | cons c rest ih =>
    unfold searchWith at h
    cases hm : m (c :: rest) with
    | some r' =>
      rw [hm] at h
      exact ⟨c :: rest, hm.trans h⟩
    | none =>
      rw [hm] at h
      exact ih h

theorem extractCityStateFromText_zip {t g1 g2 : Str}
    (h : searchWith (matchCityStateAt true) t = some (g1, g2)) :
    extractCityStateFromText t = some (stripStr g1 ++ (", ").data ++ g2) := by
  unfold extractCityStateFromText
  rw [h]

theorem extractCityStateFromText_nozip {t g1 g2 : Str}
    (h1 : searchWith (matchCityStateAt true) t = none)
    (h2 : searchWith (matchCityStateAt false) t = some (g1, g2)) :
    extractCityStateFromText t = some (stripStr g1 ++ (", ").data ++ g2) := by
  unfold extractCityStateFromText
  rw [h1, h2]

theorem extract_city_state_structural {addrs : List Str} {full cs : Str}
    (h : addrs.findSome? extractCityStateFromText = some cs) :
    extract_city_state addrs full = cs := by
  unfold extract_city_state
  rw [h]

theorem extract_city_state_fallback {addrs : List Str} {full : Str}
    (h : addrs.findSome? extractCityStateFromText = none) :
    extract_city_state addrs full = (extractCityStateFromText full).getD [] := by
  unfold extract_city_state
  rw [h]

theorem matchCityStateAt_groups {z : Bool} {s g1 g2 : Str}
    (h : matchCityStateAt z s = some (g1, g2)) :
    ∃ a b, g2 = [a, b] ∧ isUpperAZ a = true ∧ isUpperAZ b = true := by
  unfold matchCityStateAt at h
  dsimp only at h
  repeat' split at h
  all_goals first
    | (simp only [Option.some.injEq, Prod.mk.injEq] at h
       refine ⟨_, _, h.2.symm, ?_, ?_⟩ <;> simp_all)
    | simp at h

theorem extractCityStateFromText_format {t cs : Str}
    (h : extractCityStateFromText t = some cs) :
    ∃ city st, st.length = 2 ∧ (∀ c ∈ st, isUpperAZ c = true) ∧
      cs = city ++ (", ").data ++ st := by
  cases h1 : searchWith (matchCityStateAt true) t with
  | some r =>
    obtain ⟨g1, g2⟩ := r
    rw [extractCityStateFromText_zip h1] at h
    obtain rfl := Option.some.inj h
    obtain ⟨s, hs⟩ := searchWith_some h1
    obtain ⟨a, b, rfl, ha, hb⟩ := matchCityStateAt_groups hs
    exact ⟨stripStr g1, [a, b], rfl, by simp [ha, hb], rfl⟩
  | none =>
    cases h2 : searchWith (matchCityStateAt false) t with
    | some r =>
      obtain ⟨g1, g2⟩ := r
      rw [extractCityStateFromText_nozip h1 h2] at h
      obtain rfl := Option.some.inj h
      obtain ⟨s, hs⟩ := searchWith_some h2
      obtain ⟨a, b, rfl, ha, hb⟩ := matchCityStateAt_groups hs
      exact ⟨stripStr g1, [a, b], rfl, by simp [ha, hb], rfl⟩
    | none =>
      unfold extractCityStateFromText at h
      rw [h1, h2] at h
      exact absurd h (by simp)

/-- C5. Location extraction: the ZIP-qualified pattern has priority (a
hit of it fixes the output, whatever the plain pattern would give); the
structural scan stops at the first address element that yields a match;
the full-page text is consulted exactly when the structural scan
produced nothing; and every produced value has the shape
`<city>, <two uppercase letters>`. -/
theorem c5_location_extraction :
    (∀ t g1 g2, searchWith (matchCityStateAt true) t = some (g1, g2) →
      extractCityStateFromText t = some (stripStr g1 ++ (", ").data ++ g2))
    ∧ (∀ ts1 t ts2 full cs, (∀ t' ∈ ts1, extractCityStateFromText t' = none) →
        extractCityStateFromText t = some cs →
        extract_city_state (ts1 ++ t :: ts2) full = cs)
    ∧ (∀ addrs full, addrs.findSome? extractCityStateFromText = none →
        extract_city_state addrs full = (extractCityStateFromText full).getD [])
    ∧ (∀ t cs, extractCityStateFromText t = some cs →
        ∃ city st, st.length = 2 ∧ (∀ c ∈ st, isUpperAZ c = true) ∧
          cs = city ++ (", ").data ++ st) :=
  ⟨fun _ _ _ h => extractCityStateFromText_zip h,
    fun _ _ _ _ _ h1 h2 => extract_city_state_structural (findSome?_first h1 h2),
    fun _ _ h => extract_city_state_fallback h,
    fun _ _ h => extractCityStateFromText_format h⟩

/-- Witness for C5: a text containing the plain match `"Nowhere, XX"`
before the ZIP-qualified `"Somewhere, CA 92101"` (and hence containing
both `"Somewhere, CA"` and `"Somewhere, CA 92101"`) extracts the
ZIP-determined `"Somewhere, CA"`, also through the element scan. -/
theorem c5_location_extraction_witness :
    extractCityStateFromText (("Nowhere, XX; Somewhere, CA 92101").data) =
      some (("Somewhere, CA").data)
    ∧ extract_city_state [("Nowhere, XX; Somewhere, CA 92101").data] [] =
      ("Somewhere, CA").data := by
  have h1 := c5_location_extraction.1 (("Nowhere, XX; Somewhere, CA 92101").data)
    (("Somewhere").data) (("CA").data) (by decide)
  have heq : (some (stripStr (("Somewhere").data) ++ (", ").data ++ ("CA").data) :
      Option Str) = some (("Somewhere, CA").data) := by decide
  have h1' := h1.trans heq
  refine ⟨h1', ?_⟩
  have h2 := c5_location_extraction.2.1 [] (("Nowhere, XX; Somewhere, CA 92101").data)
    [] [] (("Somewhere, CA").data) (by simp) h1'
  simpa using h2

theorem extract_provider_structural {abouts : List Str} {full n : Str} {c : Option Str}
    (h : abouts.findSome? extractProviderFromText = some (n, c)) :
    extract_provider abouts full = (n, c.getD []) := by
  unfold extract_provider
  rw [h]

theorem extract_provider_fallback_some {abouts : List Str} {full n : Str} {c : Option Str}
    (h1 : abouts.findSome? extractProviderFromText = none)
    (h2 : extractProviderFromText full = some (n, c)) :
    extract_provider abouts full = (n, c.getD []) := by
  unfold extract_provider
  rw [h1, h2]

theorem extract_provider_nothing {abouts : List Str} {full : Str}
    (h1 : abouts.findSome? extractProviderFromText = none)
    (h2 : extractProviderFromText full = none) :
    extract_provider abouts full = ([], []) := by
  unfold extract_provider
  rw [h1, h2]

/-- C6 counterexample: on the text `"John Smith, MD"` the comma pattern
matches `"John Smith, MD"` whole (the credential token is part of the
pattern), the 50-character window that the code searches starts after
that full match and is therefore empty, and the extractor leaves the
credentials unset — although the credential token `MD` lies inside the
50-character window immediately after the matched name `"John Smith"`
(that window is `", MD"`), where the claim says the search happens. -/
theorem c6_credential_window_counterexample :
    extractProviderFromText (("John Smith, MD").data) =
      some ((("John Smith").data), none)
    ∧ searchCred (((", MD").data).take 50) = some (("MD").data) := by
  constructor
  · decide
  · decide

/-- C6 (amended). Provider extraction scans the about/doctor/team-tagged
regions first and the first region whose text matches one of the ordered
patterns wins; the credential is searched only inside the 50-character
window that begins at the end of the full pattern match (immediately
after the name for the `Dr. First Last` pattern, but after the
credential token already consumed by the match for the comma/space
suffix patterns); when no region matches, the patterns are retried
exactly once on the full page text; and when nothing matches anywhere
both fields are left empty without any error. -/
theorem c6_provider_extraction :
    (∀ ss1 t ss2 full n c, (∀ s ∈ ss1, extractProviderFromText s = none) →
        extractProviderFromText t = some (n, c) →
        extract_provider (ss1 ++ t :: ss2) full = (n, c.getD []))
    ∧ (∀ t name rest, providerSearch t = some (name, rest) →
        extractProviderFromText t = some (name, searchCred (rest.take 50)))
    ∧ (∀ abouts full n c, abouts.findSome? extractProviderFromText = none →
        extractProviderFromText full = some (n, c) →
        extract_provider abouts full = (n, c.getD []))
    ∧ (∀ abouts full, abouts.findSome? extractProviderFromText = none →
        extractProviderFromText full = none →
        extract_provider abouts full = ([], [])) := by
  refine ⟨fun ss1 t ss2 full n c h1 h2 =>
      extract_provider_structural (findSome?_first h1 h2),
    fun t name rest h => ?_,
    fun abouts full n c h1 h2 => extract_provider_fallback_some h1 h2,
    fun abouts full h1 h2 => extract_provider_nothing h1 h2⟩
  unfold extractProviderFromText
  rw [h]

/-- Witness for C6: one about-section containing `"Dr. Jane Roe, DVM"`
yields the provider `"Jane Roe"` with credentials `"DVM"` found in the
window after the match. -/
theorem c6_provider_extraction_witness :
    extract_provider [("Dr. Jane Roe, DVM").data] [] =
      (("Jane Roe").data, ("DVM").data) := by
  have h := c6_provider_extraction.1 [] (("Dr. Jane Roe, DVM").data) [] []
    (("Jane Roe").data) (some (("DVM").data)) (by simp) (by decide)
  simpa using h

/-- C2. Batch processing emits a record for a URL exactly when the
matcher found a competitor on its (scheme-fixed) form: the output is the
emission-filtered image of the input; hence the output count never
exceeds the input count; and every emitted record carries the fixed
input URL as `website_url` and the matched vendor as
`website_provider`. -/
theorem c2_batch_emission (competitors : List Str) (fetch : Str → Option Doc)
    (urls : List Str) :
    process_urls competitors fetch urls =
      ((urls.map fixUrl).filter (fun u => (check_url competitors fetch u).1)).map
        (fun u => extract_clinic_data competitors fetch u
          ((check_url competitors fetch u).2.getD []))
    ∧ (process_urls competitors fetch urls).length ≤ urls.length
    ∧ ∀ rec ∈ process_urls competitors fetch urls, ∃ u ∈ urls,
        (check_url competitors fetch (fixUrl u)).1 = true ∧
        rec.website_url = fixUrl u ∧
        rec.website_provider = (check_url competitors fetch (fixUrl u)).2.getD [] := by
  have hmain : process_urls competitors fetch urls =
      ((urls.map fixUrl).filter (fun u => (check_url competitors fetch u).1)).map
        (fun u => extract_clinic_data competitors fetch u
          ((check_url competitors fetch u).2.getD [])) := by
    induction urls with
    | nil => rfl
    | cons u rest ih =>
      simp only [process_urls, List.map_cons, List.filter_cons]
      cases hc : (check_url competitors fetch (fixUrl u)).1 with
      | true => simp [hc, ih]
      | false => simp [hc, ih]
  have hlen : (process_urls competitors fetch urls).length ≤ urls.length := by
    rw [hmain, List.length_map]
    calc ((urls.map fixUrl).filter
          (fun u => (check_url competitors fetch u).1)).length
        ≤ (urls.map fixUrl).length := List.length_filter_le _ _
      _ = urls.length := List.length_map _ _
  refine ⟨hmain, hlen, ?_⟩
  intro rec hrec
  rw [hmain] at hrec
  rcases List.mem_map.mp hrec with ⟨u', hu', rfl⟩
  rcases List.mem_filter.mp hu' with ⟨humem, hp⟩
  rcases List.mem_map.mp humem with ⟨u, hu, rfl⟩
  exact ⟨u, hu, by simpa using hp,
    extract_clinic_data_website_url .., extract_clinic_data_website_provider ..⟩

/-- Witness for C2: with competitor `"tebra"` and the `fetchB`
environment, processing `["b.example.com"]` yields at most one record,
and the record that is emitted (for the auto-prefixed URL) carries the
URL and the vendor. -/
theorem c2_batch_emission_witness :
    (process_urls [("tebra").data] fetchB [("b.example.com").data]).length ≤ 1
    ∧ ∃ u ∈ [("b.example.com").data],
        (check_url [("tebra").data] fetchB (fixUrl u)).1 = true ∧
        (extract_clinic_data [("tebra").data] fetchB
          (("http://b.example.com").data) (("tebra").data)).website_url = fixUrl u ∧
        (extract_clinic_data [("tebra").data] fetchB
          (("http://b.example.com").data) (("tebra").data)).website_provider =
          (check_url [("tebra").data] fetchB (fixUrl u)).2.getD [] := by
  have h := c2_batch_emission [("tebra").data] fetchB [("b.example.com").data]
  refine ⟨h.2.1, ?_⟩
  exact h.2.2
    (extract_clinic_data [("tebra").data] fetchB
      (("http://b.example.com").data) (("tebra").data))
    (by decide)

/-- Witness for C1: a page containing no configured vendor string in any
representation yields `found = false` and no vendor. -/
theorem c1_matcher_found_iff_witness :
    (matchDoc [("tebra").data]
      { rawHtml := ("<html>welcome</html>").data
        pageText := ("welcome").data
        footerText := some (("all rights reserved").data)
        title := none
        h1Texts := []
        aboutSectionTexts := []
        addressElementTexts := []
        contactElementTexts := []
        telHrefs := []
        mailtoHrefs := [] }).2 = none := by
  exact (c1_matcher_found_iff [("tebra").data] _).2 (by decide)

/-- Witness for C9: in the concrete tree the footer text is a substring
of the page text, and the matcher agrees with its footerless variant. -/
theorem c9_footer_scan_redundant_witness :
    SubstringOf (HNode.getText footerEx) (HNode.getText treeEx)
    ∧ check_competitor_presence [("tebra").data] (docOfTree treeEx []) =
        check_competitor_presence_noFooter [("tebra").data] (docOfTree treeEx []) := by
  have h := c9_footer_scan_redundant [("tebra").data] treeEx []
  refine ⟨h.1 footerEx ?_, h.2⟩
  simp [treeEx, footerEx, HNode.findTag, HForest.findTag]
